import Mathlib

/-!
# Verification of the Grazil Lingeling binding (`src/c/grazil/bindings/lingeling/Solver.c`)

The file shallowly embeds the Lua-C binding functions of `Solver.c`:
`Solver_new` / `Solver_gc` (lifecycle), `get_lgl` (self validation),
`Solver_addDIMACSSeqence` (clause submission), `Solver_isSatisfiable`
(solve) and `Solver_query` (literal deref).

Lua values on the stack are modelled by the inductive `LuaVal`; metatables
are identified by a `Nat` tag, and the Solver class (the closures' shared
upvalue) is a tag passed to every operation.  The Lingeling engine is
opaque: every interaction with it is recorded as an `ECall` event
(`lgladd`, `lglsat`, `lglderef`, `lglrelease`), and the engine's answers
come from an abstract oracle `LGL` (a pure function for the solve result
code and one for literal dereferencing; `lglderef` is a read-only accessor
of the engine, so dereferencing does not change engine state).  Each
binding function returns the ordered trace of engine calls it performed
together with its `Except`-style outcome (`lua_error` aborts the call, but
engine calls already made — a C `longjmp` does not undo `lgladd` — stay in
the trace).  The engine state reached after an operation is
`applyTrace st tr`, applied to the trace whether or not the call errored.
-/

/-- A Lua value, as discriminated by the binding: the binding distinguishes
tables (`LUA_TTABLE`), integer-convertible values (`lua_tointegerx`),
userdata (`lua_touserdata`) and everything else.  Tables and userdata carry
an optional metatable tag (`lua_getmetatable`); a userdata carries the
`LGL*` handle stored in it by `Solver_new`. -/
inductive LuaVal where
  | nil : LuaVal
  | boolean (b : Bool) : LuaVal
  | int (n : Int) : LuaVal
  | str (s : String) : LuaVal
  | table (meta : Option Nat) (elems : List LuaVal) : LuaVal
  | userdata (meta : Option Nat) (handle : Nat) : LuaVal

/-- `lua_getmetatable`: only tables and userdata carry metatables here
(the binding never puts a metatable on another kind of value). -/
def getmetatable : LuaVal → Option Nat
  | .table m _ => m
  | .userdata m _ => m
  | _ => none

/-- `lua_touserdata`: non-`NULL` exactly on userdata. -/
def touserdata : LuaVal → Option Nat
  | .userdata _ h => some h
  | _ => none

/-- Decimal digit value of a character, if it is a digit. -/
def digitVal (c : Char) : Option Nat :=
  if c.isDigit then some (c.toNat - 48) else none

/-- Parse a character list as a decimal natural number; fails when empty
or containing a non-digit. -/
def charsToNat : List Char → Option Nat
  | [] => none
  | cs => cs.foldl (fun acc c =>
      match acc, digitVal c with
      | some n, some d => some (10 * n + d)
      | _, _ => none) (some 0)

/-- Parse a character list as a decimal integer with optional leading
minus sign. -/
def charsToInt : List Char → Option Int
  | '-' :: rest => (charsToNat rest).map fun n => -(n : Int)
  | cs => (charsToNat cs).map fun n => (n : Int)

/-- `lua_tointegerx`: succeeds on integers and on strings convertible to an
integer (Lua's string-to-number coercion); fails on everything else. -/
def tointegerx : LuaVal → Option Int
  | .int n => some n
  | .str s => charsToInt s.data
  | _ => none

/-- `lua_tointeger` (no `isnum` out-parameter): the coercion of
`tointegerx`, returning `0` when the conversion fails. -/
def tointeger (v : LuaVal) : Int :=
  (tointegerx v).getD 0

/-- `lua_type v == LUA_TTABLE`. -/
def isTable : LuaVal → Bool
  | .table _ _ => true
  | _ => false

/-- One call into the Lingeling engine. -/
inductive ECall where
  | add (c : Int) : ECall
  | sat : ECall
  | deref (c : Int) : ECall
  | release : ECall
deriving DecidableEq, Repr

/-- Observable engine state: the stream of literals received via `lgladd`
(clause boundaries are the embedded zeros) and the number of completed
`lglsat` calls. -/
structure EngineState where
  clauses : List Int
  solves : Nat
deriving DecidableEq, Repr

/-- How one engine call transforms the engine state: `lgladd` appends to
the literal stream, `lglsat` completes a solve, `lglderef` is a read-only
accessor. -/
def applyCall (st : EngineState) : ECall → EngineState
  | .add c => { st with clauses := st.clauses ++ [c] }
  | .sat => { st with solves := st.solves + 1 }
  | .deref _ => st
  | .release => st

/-- Engine state after a trace of engine calls. -/
def applyTrace (st : EngineState) (tr : List ECall) : EngineState :=
  tr.foldl applyCall st

/-- The engine's answers, abstractly: the result code `lglsat` returns on a
given literal stream, and the value `lglderef` reports for a literal in a
given engine state. -/
structure LGL where
  solveRes : List Int → Int
  derefRes : EngineState → Int → Int

/-- `lglib.h` result code for a satisfiable solve. -/
def LGL_SATISFIABLE : Int := 10

/-- `lglib.h` result code for an unsatisfiable solve. -/
def LGL_UNSATISFIABLE : Int := 20

/-- `lglib.h` result code for an unknown/terminated solve. -/
def LGL_UNKNOWN : Int := 0

/-- `get_lgl`: validates the self argument (stack position 1) against the
Solver class tag `cls` (the closure's upvalue) — it must carry a metatable,
the metatable must equal the class, and it must be a userdata — and
returns the stored engine handle, else raises "Invalid self argument". -/
def get_lgl (cls : Nat) (self : LuaVal) : Except String Nat :=
  match getmetatable self with
  | none => .error "Invalid self argument"
  | some m =>
    if m ≠ cls then .error "Invalid self argument"
    else
      match touserdata self with
      | none => .error "Invalid self argument"
      | some h => .ok h

/-- `Solver_gc`: `lua_touserdata` on stack position 1; if non-`NULL`,
release the engine handle (no metatable check, no guard against a repeated
release — the stored pointer is not cleared). -/
def Solver_gc (self : LuaVal) : List ECall :=
  match touserdata self with
  | some _ => [.release]
  | none => []

/-- Inner loop of `Solver_addDIMACSSeqence` over the entries of one table
argument: `lua_geti` each entry in index order, convert with
`lua_tointegerx`, raising "Illegal argument in DIMACS sequence" on
conversion failure, else `lgladd` it.  Entries added before a failing
entry stay in the trace. -/
def addFromTable : List LuaVal → List ECall × Except String Unit
  | [] => ([], .ok ())
  | v :: rest =>
    match tointegerx v with
    | none => ([], .error "Illegal argument in DIMACS sequence")
    | some c =>
      let (tr, r) := addFromTable rest
      (.add c :: tr, r)

/-- Outer loop of `Solver_addDIMACSSeqence` over the arguments (stack
positions 2..n): a table argument is flattened entry by entry, any other
argument is converted with `lua_tointegerx` and `lgladd`ed, raising
"Illegal argument in DIMACS sequence" on conversion failure. -/
def addArgs : List LuaVal → List ECall × Except String Unit
  | [] => ([], .ok ())
  | a :: rest =>
    match a with
    | .table _ elems =>
      let (tr, r) := addFromTable elems
      match r with
      | .error e => (tr, .error e)
      | .ok _ =>
        let (tr2, r2) := addArgs rest
        (tr ++ tr2, r2)
    | _ =>
      match tointegerx a with
      | none => ([], .error "Illegal argument in DIMACS sequence")
      | some c =>
        let (tr2, r2) := addArgs rest
        (.add c :: tr2, r2)

/-- `Solver_addDIMACSSeqence`: validate self with `get_lgl`, then forward
every argument (scalars and table entries, in argument order then entry
order) to `lgladd`.  `args` is the whole Lua stack, self first. -/
def Solver_addDIMACSSeqence (cls : Nat) (args : List LuaVal) :
    List ECall × Except String Unit :=
  match get_lgl cls (args.getD 0 .nil) with
  | .error e => ([], .error e)
  | .ok _ => addArgs (args.drop 1)

/-- `Solver_isSatisfiable`: validate self with `get_lgl`, run one `lglsat`
over the clauses added so far, and push `true` exactly when the result
code is `LGL_SATISFIABLE`. -/
def Solver_isSatisfiable (oracle : LGL) (cls : Nat) (self : LuaVal)
    (st : EngineState) : List ECall × Except String Bool :=
  match get_lgl cls self with
  | .error e => ([], .error e)
  | .ok _ =>
    ([.sat], .ok (if oracle.solveRes st.clauses = LGL_SATISFIABLE then true else false))

/-- Inner loop of `Solver_query` over the entries of the query table:
`lua_geti` each entry, coerce it with `lua_tointeger` (so a non-integer
entry becomes `0`), raise "Array may contain only non-zero integers" when
the coerced value is `0`, else `lglderef` it and record the result at the
same index of the output table. -/
def queryLoop (oracle : LGL) (st : EngineState) :
    List LuaVal → List ECall × Except String (List Int)
  | [] => ([], .ok [])
  | v :: rest =>
    let c := tointeger v
    if c = 0 then ([], .error "Array may contain only non-zero integers")
    else
      let r := oracle.derefRes st c
      let (tr, res) := queryLoop oracle st rest
      (.deref c :: tr, res.map (fun l => r :: l))

/-- `Solver_query`: validate self with `get_lgl`; require exactly two
stack values (self and one argument), else raise "Query must be called
with arguments self and a table"; require the argument to be a table, else
raise "Query must be called with a table argument"; then deref each table
entry in order into a fresh same-length output table.  `args` is the whole
Lua stack, self first. -/
def Solver_query (oracle : LGL) (cls : Nat) (args : List LuaVal)
    (st : EngineState) : List ECall × Except String (List Int) :=
  match get_lgl cls (args.getD 0 .nil) with
  | .error e => ([], .error e)
  | .ok _ =>
    if args.length ≠ 2 then
      ([], .error "Query must be called with arguments self and a table")
    else
      match args.getD 1 .nil with
      | .table _ elems => queryLoop oracle st elems
      | _ => ([], .error "Query must be called with a table argument")

/-!
## Spec-side helpers and shared lemmas
-/

/-- Spec-side flattening of a clause-submission argument list: a table
argument contributes its entries in order, any other argument contributes
its own integer value; arguments contribute in argument order. -/
def flattenArgs (args : List LuaVal) : List Int :=
  args.flatMap fun a =>
    match a with
    | .table _ elems => elems.map tointeger
    | _ => [tointeger a]

/-- An argument of `Solver_addDIMACSSeqence` is integer-valued: a table
all of whose entries convert with `lua_tointegerx`, or a scalar that
converts itself. -/
def intValuedArg : LuaVal → Bool
  | .table _ elems => elems.all fun v => (tointegerx v).isSome
  | a => (tointegerx a).isSome

/-- A concrete engine oracle used to instantiate theorems: every solve
reports satisfiable, `lglderef` echoes the queried literal. -/
def testLGL : LGL :=
  { solveRes := fun _ => LGL_SATISFIABLE
    derefRes := fun _ c => c }

theorem addFromTable_valid (elems : List LuaVal)
    (h : elems.all (fun v => (tointegerx v).isSome) = true) :
    addFromTable elems = (elems.map fun v => ECall.add (tointeger v), .ok ()) := by
  induction elems with
  | nil => rfl
  | cons v rest ih =>
    simp only [List.all_cons, Bool.and_eq_true] at h
    obtain ⟨hv, hrest⟩ := h
    obtain ⟨c, hc⟩ := Option.isSome_iff_exists.mp hv
    simp [addFromTable, hc, ih hrest, tointeger]

theorem addFromTable_prefix (es1 : List LuaVal) (bad : LuaVal) (es2 : List LuaVal)
    (h : es1.all (fun v => (tointegerx v).isSome) = true)
    (hbad : tointegerx bad = none) :
    addFromTable (es1 ++ bad :: es2) =
      (es1.map (fun v => ECall.add (tointeger v)),
       .error "Illegal argument in DIMACS sequence") := by
  induction es1 with
  | nil => simp [addFromTable, hbad]
  | cons v rest ih =>
    simp only [List.all_cons, Bool.and_eq_true] at h
    obtain ⟨hv, hrest⟩ := h
    obtain ⟨c, hc⟩ := Option.isSome_iff_exists.mp hv
    simp [addFromTable, hc, ih hrest, tointeger]

theorem addArgs_append_valid (pre rest : List LuaVal)
    (h : pre.all intValuedArg = true) :
    addArgs (pre ++ rest) =
      ((flattenArgs pre).map ECall.add ++ (addArgs rest).1, (addArgs rest).2) := by
  induction pre with
  | nil => simp [flattenArgs]
  | cons a pre ih =>
    simp only [List.all_cons, Bool.and_eq_true] at h
    obtain ⟨ha, hpre⟩ := h
    cases a with
    | table m elems =>
      simp only [intValuedArg] at ha
      simp [addArgs, addFromTable_valid elems ha, ih hpre, flattenArgs,
        List.map_append, Function.comp]
    | nil =>
      simp [intValuedArg, tointegerx] at ha
    | boolean b =>
      simp [intValuedArg, tointegerx] at ha
    | int n =>
      simp [addArgs, tointegerx, ih hpre, flattenArgs, tointeger]
    | str s =>
      simp only [intValuedArg, tointegerx] at ha
      obtain ⟨c, hc⟩ := Option.isSome_iff_exists.mp ha
      simp [addArgs, tointegerx, hc, ih hpre, flattenArgs, tointeger]
    | userdata m hdl =>
      simp [intValuedArg, tointegerx] at ha

theorem applyTrace_adds (st : EngineState) (ls : List Int) :
    applyTrace st (ls.map ECall.add) =
      { clauses := st.clauses ++ ls, solves := st.solves } := by
  induction ls generalizing st with
  | nil => simp [applyTrace]
  | cons c ls ih =>
    simp [applyTrace, applyCall] at ih ⊢
    rw [ih]
    simp

theorem queryLoop_ok (oracle : LGL) (st : EngineState) (elems : List LuaVal)
    (hv : ∀ v ∈ elems, tointeger v ≠ 0) :
    queryLoop oracle st elems =
      (elems.map fun v => ECall.deref (tointeger v),
       .ok (elems.map fun v => oracle.derefRes st (tointeger v))) := by
  induction elems with
  | nil => rfl
  | cons v rest ih =>
    have hvz : tointeger v ≠ 0 := hv v (List.mem_cons_self v rest)
    have hrest : ∀ w ∈ rest, tointeger w ≠ 0 := fun w hw => hv w (List.mem_cons_of_mem v hw)
    simp [queryLoop, hvz, ih hrest, Except.map]

theorem queryLoop_err_of_zero (oracle : LGL) (st : EngineState) (es1 : List LuaVal)
    (v : LuaVal) (es2 : List LuaVal)
    (h1 : ∀ w ∈ es1, tointeger w ≠ 0) (hv : tointeger v = 0) :
    (queryLoop oracle st (es1 ++ v :: es2)).2 =
      .error "Array may contain only non-zero integers" := by
  induction es1 with
  | nil => simp [queryLoop, hv]
  | cons w rest ih =>
    have hwz : tointeger w ≠ 0 := h1 w (List.mem_cons_self w rest)
    have hrest : ∀ u ∈ rest, tointeger u ≠ 0 := fun u hu => h1 u (List.mem_cons_of_mem w hu)
    have := ih hrest
    simp only [List.cons_append, queryLoop, hwz, if_neg hwz]
    cases hq : queryLoop oracle st (rest ++ v :: es2) with
    | mk tr res =>
      rw [hq] at this
      simp at this
      simp [this, Except.map]

theorem queryLoop_err_of_mem_zero (oracle : LGL) (st : EngineState) (elems : List LuaVal)
    (hall : ∀ v ∈ elems, ∃ n : Int, v = .int n) (h0 : LuaVal.int 0 ∈ elems) :
    (queryLoop oracle st elems).2 =
      .error "Array may contain only non-zero integers" := by
  induction elems with
  | nil => cases h0
  | cons v rest ih =>
    obtain ⟨n, hn⟩ := hall v (List.mem_cons_self v rest)
    by_cases hz : tointeger v = 0
    · simp [queryLoop, hz]
    · have hrest : ∀ w ∈ rest, ∃ k : Int, w = .int k :=
        fun w hw => hall w (List.mem_cons_of_mem v hw)
      have h0r : LuaVal.int 0 ∈ rest := by
        rcases List.mem_cons.mp h0 with heq | hm
        · exfalso
          apply hz
          rw [← heq]
          rfl
        · exact hm
      have := ih hrest h0r
      simp only [queryLoop, if_neg hz]
      cases hq : queryLoop oracle st rest with
      | mk tr res =>
        rw [hq] at this
        simp at this
        simp [this, Except.map]

theorem queryLoop_trace_derefs (oracle : LGL) (st : EngineState) (elems : List LuaVal) :
    ∀ c ∈ (queryLoop oracle st elems).1, ∃ k, c = ECall.deref k := by
  induction elems with
  | nil => intro c hc; cases hc
  | cons v rest ih =>
    intro c hc
    by_cases hz : tointeger v = 0
    · simp [queryLoop, hz] at hc
    · simp only [queryLoop, if_neg hz] at hc
      cases hq : queryLoop oracle st rest with
      | mk tr res =>
        rw [hq] at hc
        simp at hc
        rcases hc with hc | hc
        · exact ⟨tointeger v, hc⟩
        · have := ih c
          rw [hq] at this
          exact this hc

theorem applyTrace_deref_only (st : EngineState) (tr : List ECall)
    (h : ∀ c ∈ tr, ∃ k, c = ECall.deref k) : applyTrace st tr = st := by
  induction tr generalizing st with
  | nil => rfl
  | cons c tr ih =>
    obtain ⟨k, hk⟩ := h c (List.mem_cons_self c tr)
    subst hk
    have : applyCall st (ECall.deref k) = st := rfl
    simp only [applyTrace, List.foldl_cons, this]
    exact ih st fun c hc => h c (List.mem_cons_of_mem _ hc)

/-!
## Claim theorems
-/

/-- C1: for every session and previously added clause stream,
`isSatisfiable` performs exactly one engine solve and returns `true` if
and only if the engine reports `LGL_SATISFIABLE`; for every other engine
result (`LGL_UNSATISFIABLE`, `LGL_UNKNOWN`, or anything else) it returns
`false`. -/
theorem isSatisfiable_one_solve_iff_sat (oracle : LGL) (cls hd : Nat)
    (self : LuaVal) (st : EngineState) (h : get_lgl cls self = .ok hd) :
    (Solver_isSatisfiable oracle cls self st).1 = [ECall.sat] ∧
    ((Solver_isSatisfiable oracle cls self st).2 = .ok true ↔
      oracle.solveRes st.clauses = LGL_SATISFIABLE) ∧
    ((oracle.solveRes st.clauses = LGL_UNSATISFIABLE ∨
      oracle.solveRes st.clauses = LGL_UNKNOWN ∨
      oracle.solveRes st.clauses ≠ LGL_SATISFIABLE) →
      (Solver_isSatisfiable oracle cls self st).2 = .ok false) := by
  simp only [Solver_isSatisfiable, h]
  refine ⟨trivial, ?_, ?_⟩
  · by_cases hs : oracle.solveRes st.clauses = LGL_SATISFIABLE <;> simp [hs]
  · rintro (h20 | h0 | hne)
    · simp [h20, LGL_UNSATISFIABLE, LGL_SATISFIABLE]
    · simp [h0, LGL_UNKNOWN, LGL_SATISFIABLE]
    · simp [hne]

/-- Witness for C1 at a concrete session and the always-satisfiable test
oracle. -/
theorem isSatisfiable_one_solve_iff_sat_witness :
    get_lgl 0 (LuaVal.userdata (some 0) 7) = .ok 7 ∧
    ((Solver_isSatisfiable testLGL 0 (LuaVal.userdata (some 0) 7) ⟨[], 0⟩).1 =
        [ECall.sat] ∧
      ((Solver_isSatisfiable testLGL 0 (LuaVal.userdata (some 0) 7) ⟨[], 0⟩).2 =
          .ok true ↔ testLGL.solveRes (EngineState.mk [] 0).clauses = LGL_SATISFIABLE) ∧
      ((testLGL.solveRes (EngineState.mk [] 0).clauses = LGL_UNSATISFIABLE ∨
        testLGL.solveRes (EngineState.mk [] 0).clauses = LGL_UNKNOWN ∨
        testLGL.solveRes (EngineState.mk [] 0).clauses ≠ LGL_SATISFIABLE) →
        (Solver_isSatisfiable testLGL 0 (LuaVal.userdata (some 0) 7) ⟨[], 0⟩).2 =
          .ok false)) :=
  ⟨rfl, isSatisfiable_one_solve_iff_sat testLGL 0 7 (LuaVal.userdata (some 0) 7) ⟨[], 0⟩ rfl⟩

/-- C5: every operation invoked on a self argument failing identity
validation (no metatable, metatable different from the Solver class, or
not a userdata) fails with "Invalid self argument" and performs no engine
call (empty trace). -/
theorem invalid_self_rejected (oracle : LGL) (cls : Nat) (self : LuaVal)
    (rest : List LuaVal) (st : EngineState)
    (h : getmetatable self = none ∨
         (∃ m, getmetatable self = some m ∧ m ≠ cls) ∨
         touserdata self = none) :
    get_lgl cls self = .error "Invalid self argument" ∧
    Solver_addDIMACSSeqence cls (self :: rest) = ([], .error "Invalid self argument") ∧
    Solver_isSatisfiable oracle cls self st = ([], .error "Invalid self argument") ∧
    Solver_query oracle cls (self :: rest) st = ([], .error "Invalid self argument") := by
  have hg : get_lgl cls self = .error "Invalid self argument" := by
    rcases h with h | ⟨m, hm, hne⟩ | h
    · simp [get_lgl, h]
    · simp [get_lgl, hm, hne]
    · cases hmt : getmetatable self with
      | none => simp [get_lgl, hmt]
      | some m =>
        by_cases hmc : m = cls
        · simp [get_lgl, hmt, hmc, h]
        · simp [get_lgl, hmt, hmc]
  refine ⟨hg, ?_, ?_, ?_⟩
  · simp [Solver_addDIMACSSeqence, hg]
  · simp [Solver_isSatisfiable, hg]
  · simp [Solver_query, hg]

/-- Witness for C5: `nil` has no metatable, so every operation rejects it. -/
theorem invalid_self_rejected_witness :
    (getmetatable LuaVal.nil = none ∨
      (∃ m, getmetatable LuaVal.nil = some m ∧ m ≠ 0) ∨
      touserdata LuaVal.nil = none) ∧
    (get_lgl 0 LuaVal.nil = .error "Invalid self argument" ∧
      Solver_addDIMACSSeqence 0 [LuaVal.nil] = ([], .error "Invalid self argument") ∧
      Solver_isSatisfiable testLGL 0 LuaVal.nil ⟨[], 0⟩ =
        ([], .error "Invalid self argument") ∧
      Solver_query testLGL 0 [LuaVal.nil] ⟨[], 0⟩ =
        ([], .error "Invalid self argument")) :=
  ⟨Or.inl rfl, invalid_self_rejected testLGL 0 LuaVal.nil [] ⟨[], 0⟩ (Or.inl rfl)⟩

/-- C6 counterexample: a sequence of operations containing two disposal
steps on the same userdata releases the engine handle twice — `Solver_gc`
has no guard, so the second disposal does release again, contradicting the
claim. -/
theorem double_gc_releases_twice :
    (Solver_gc (LuaVal.userdata (some 0) 7) ++
      Solver_gc (LuaVal.userdata (some 0) 7)).count ECall.release = 2 ∧
    ¬ ((Solver_gc (LuaVal.userdata (some 0) 7) ++
        Solver_gc (LuaVal.userdata (some 0) 7)).count ECall.release ≤ 1) := by
  constructor <;> decide

/-- C6 amended: each single `Solver_gc` invocation releases the handle at
most once (exactly once iff the disposed value is a userdata); exactly-once
release over a session's lifetime relies on the Lua garbage collector
calling `__gc` at most once, since `Solver_gc` itself has no double-release
guard. -/
theorem gc_releases_once_per_call (self : LuaVal) :
    (Solver_gc self).count ECall.release ≤ 1 ∧
    ((Solver_gc self).count ECall.release = 1 ↔ (touserdata self).isSome = true) := by
  cases self <;> simp [Solver_gc, touserdata]

/-- C7: querying performs only read-only `lglderef` engine calls, so it
leaves the engine state (clause database and completed-solve count)
unchanged, and a second identical query after the first returns the
identical trace and result sequence. -/
theorem query_no_mutation_idempotent (oracle : LGL) (cls : Nat)
    (args : List LuaVal) (st : EngineState) :
    applyTrace st (Solver_query oracle cls args st).1 = st ∧
    Solver_query oracle cls args (applyTrace st (Solver_query oracle cls args st).1) =
      Solver_query oracle cls args st := by
  have hderef : ∀ c ∈ (Solver_query oracle cls args st).1, ∃ k, c = ECall.deref k := by
    unfold Solver_query
    split
    · intro c hc; cases hc
    · split
      · intro c hc; cases hc
      · split
        · exact queryLoop_trace_derefs oracle st _
        · intro c hc; cases hc
  have hst : applyTrace st (Solver_query oracle cls args st).1 = st :=
    applyTrace_deref_only st _ hderef
  exact ⟨hst, by rw [hst]⟩

/-- C4: with a table of non-zero integer literals, `query` returns the
same-length sequence whose j-th entry is the engine's deref result for the
j-th input literal, in input order; with any zero entry among integer
entries, the call fails with "Array may contain only non-zero integers". -/
theorem query_deref_per_literal (oracle : LGL) (cls hd : Nat) (self : LuaVal)
    (m : Option Nat) (elems : List LuaVal) (st : EngineState)
    (h : get_lgl cls self = .ok hd) :
    ((∀ v ∈ elems, ∃ n : Int, n ≠ 0 ∧ v = .int n) →
      Solver_query oracle cls [self, .table m elems] st =
        (elems.map fun v => ECall.deref (tointeger v),
         .ok (elems.map fun v => oracle.derefRes st (tointeger v))) ∧
      (elems.map fun v => oracle.derefRes st (tointeger v)).length = elems.length) ∧
    ((∀ v ∈ elems, ∃ n : Int, v = .int n) → LuaVal.int 0 ∈ elems →
      (Solver_query oracle cls [self, .table m elems] st).2 =
        .error "Array may contain only non-zero integers") := by
  constructor
  · intro hv
    have hnz : ∀ v ∈ elems, tointeger v ≠ 0 := by
      intro v hvm
      obtain ⟨n, hn0, hne⟩ := hv v hvm
      subst hne
      simpa [tointeger, tointegerx] using hn0
    constructor
    · simp [Solver_query, h, queryLoop_ok oracle st elems hnz]
    · simp
  · intro hall h0
    have := queryLoop_err_of_mem_zero oracle st elems hall h0
    simp [Solver_query, h, this]

/-- Witness for C4 with literals `[1, -2]` (success branch) and `[1, 0]`
would fail; the witness instantiates the theorem at `[1, -2]`. -/
theorem query_deref_per_literal_witness :
    get_lgl 0 (LuaVal.userdata (some 0) 7) = .ok 7 ∧
    ((∀ v ∈ [LuaVal.int 1, LuaVal.int (-2)], ∃ n : Int, n ≠ 0 ∧ v = .int n) →
      Solver_query testLGL 0
          [LuaVal.userdata (some 0) 7, .table none [LuaVal.int 1, LuaVal.int (-2)]]
          ⟨[], 0⟩ =
        ([LuaVal.int 1, LuaVal.int (-2)].map fun v => ECall.deref (tointeger v),
         .ok ([LuaVal.int 1, LuaVal.int (-2)].map fun v =>
            testLGL.derefRes ⟨[], 0⟩ (tointeger v))) ∧
      (([LuaVal.int 1, LuaVal.int (-2)].map fun v =>
          testLGL.derefRes ⟨[], 0⟩ (tointeger v)).length =
        [LuaVal.int 1, LuaVal.int (-2)].length)) ∧
    ((∀ v ∈ [LuaVal.int 1, LuaVal.int (-2)], ∃ n : Int, v = .int n) →
      LuaVal.int 0 ∈ [LuaVal.int 1, LuaVal.int (-2)] →
      (Solver_query testLGL 0
          [LuaVal.userdata (some 0) 7, .table none [LuaVal.int 1, LuaVal.int (-2)]]
          ⟨[], 0⟩).2 =
        .error "Array may contain only non-zero integers") :=
  ⟨rfl, query_deref_per_literal testLGL 0 7 (LuaVal.userdata (some 0) 7) none
    [LuaVal.int 1, LuaVal.int (-2)] ⟨[], 0⟩ rfl⟩

/-- C8: on a session with no completed solve, `query` with non-zero integer
literals raises no error and returns the engine-defined deref results; the
binding has no pre-solve special case: for any engine state whatsoever the
call performs the same derefs and succeeds. -/
theorem query_presolve_no_error (oracle : LGL) (cls hd : Nat) (self : LuaVal)
    (m : Option Nat) (elems : List LuaVal) (st : EngineState)
    (h : get_lgl cls self = .ok hd) (_hpre : st.solves = 0)
    (hv : ∀ v ∈ elems, ∃ n : Int, n ≠ 0 ∧ v = .int n) :
    (Solver_query oracle cls [self, .table m elems] st).2 =
      .ok (elems.map fun v => oracle.derefRes st (tointeger v)) ∧
    ∀ st' : EngineState,
      Solver_query oracle cls [self, .table m elems] st' =
        (elems.map fun v => ECall.deref (tointeger v),
         .ok (elems.map fun v => oracle.derefRes st' (tointeger v))) := by
  have hnz : ∀ v ∈ elems, tointeger v ≠ 0 := by
    intro v hvm
    obtain ⟨n, hn0, hne⟩ := hv v hvm
    subst hne
    simpa [tointeger, tointegerx] using hn0
  have hall : ∀ st' : EngineState,
      Solver_query oracle cls [self, .table m elems] st' =
        (elems.map fun v => ECall.deref (tointeger v),
         .ok (elems.map fun v => oracle.derefRes st' (tointeger v))) := by
    intro st'
    simp [Solver_query, h, queryLoop_ok oracle st' elems hnz]
  exact ⟨by rw [hall st], hall⟩

/-- Witness for C8 on a fresh session (zero completed solves). -/
theorem query_presolve_no_error_witness :
    get_lgl 0 (LuaVal.userdata (some 0) 7) = .ok 7 ∧
    (EngineState.mk [] 0).solves = 0 ∧
    (∀ v ∈ [LuaVal.int 3], ∃ n : Int, n ≠ 0 ∧ v = .int n) ∧
    ((Solver_query testLGL 0
        [LuaVal.userdata (some 0) 7, .table none [LuaVal.int 3]] ⟨[], 0⟩).2 =
      .ok ([LuaVal.int 3].map fun v => testLGL.derefRes ⟨[], 0⟩ (tointeger v)) ∧
    ∀ st' : EngineState,
      Solver_query testLGL 0
          [LuaVal.userdata (some 0) 7, .table none [LuaVal.int 3]] st' =
        ([LuaVal.int 3].map fun v => ECall.deref (tointeger v),
         .ok ([LuaVal.int 3].map fun v => testLGL.derefRes st' (tointeger v)))) := by
  have hv : ∀ v ∈ [LuaVal.int 3], ∃ n : Int, n ≠ 0 ∧ v = .int n := by
    intro v hvm
    rcases List.mem_singleton.mp hvm with rfl
    exact ⟨3, by decide, rfl⟩
  exact ⟨rfl, rfl, hv,
    query_presolve_no_error testLGL 0 7 (LuaVal.userdata (some 0) 7) none
      [LuaVal.int 3] ⟨[], 0⟩ rfl rfl hv⟩

/-- C9: a non-integer entry in the query table is coerced to `0` by
`lua_tointeger` and the call fails with the same diagnostic as a zero
literal, "Array may contain only non-zero integers" — there is no distinct
non-integer error in `Solver_query`. -/
theorem query_nonint_coerced_to_zero (oracle : LGL) (cls hd : Nat) (self : LuaVal)
    (m : Option Nat) (es1 : List LuaVal) (v : LuaVal) (es2 : List LuaVal)
    (st : EngineState)
    (h : get_lgl cls self = .ok hd)
    (hes1 : ∀ w ∈ es1, ∃ n : Int, n ≠ 0 ∧ w = .int n)
    (hv : tointegerx v = none) :
    tointeger v = 0 ∧
    (Solver_query oracle cls [self, .table m (es1 ++ v :: es2)] st).2 =
      .error "Array may contain only non-zero integers" := by
  have hz : tointeger v = 0 := by simp [tointeger, hv]
  have hnz : ∀ w ∈ es1, tointeger w ≠ 0 := by
    intro w hwm
    obtain ⟨n, hn0, hne⟩ := hes1 w hwm
    subst hne
    simpa [tointeger, tointegerx] using hn0
  have := queryLoop_err_of_zero oracle st es1 v es2 hnz hz
  exact ⟨hz, by simp [Solver_query, h, this]⟩

/-- Witness for C9: the string entry "x" after the valid literal 1. -/
theorem query_nonint_coerced_to_zero_witness :
    get_lgl 0 (LuaVal.userdata (some 0) 7) = .ok 7 ∧
    tointegerx (LuaVal.str "x") = none ∧
    (tointeger (LuaVal.str "x") = 0 ∧
      (Solver_query testLGL 0
          [LuaVal.userdata (some 0) 7,
           .table none ([LuaVal.int 1] ++ LuaVal.str "x" :: [])] ⟨[], 0⟩).2 =
        .error "Array may contain only non-zero integers") := by
  have hes1 : ∀ w ∈ [LuaVal.int 1], ∃ n : Int, n ≠ 0 ∧ w = .int n := by
    intro w hwm
    rcases List.mem_singleton.mp hwm with rfl
    exact ⟨1, by decide, rfl⟩
  exact ⟨rfl, rfl,
    query_nonint_coerced_to_zero testLGL 0 7 (LuaVal.userdata (some 0) 7) none
      [LuaVal.int 1] (LuaVal.str "x") [] ⟨[], 0⟩ rfl hes1 rfl⟩

/-- C10: `query` with a stack holding other than exactly self plus one
argument fails with "Query must be called with arguments self and a
table"; with a second value that is not a table it fails with "Query must
be called with a table argument"; in both cases the trace is empty, so no
engine deref is performed. -/
theorem query_arity_and_type_check (oracle : LGL) (cls hd : Nat)
    (self a2 : LuaVal) (rest : List LuaVal) (st : EngineState)
    (h : get_lgl cls self = .ok hd) :
    ((self :: rest).length ≠ 2 →
      Solver_query oracle cls (self :: rest) st =
        ([], .error "Query must be called with arguments self and a table")) ∧
    (isTable a2 = false →
      Solver_query oracle cls [self, a2] st =
        ([], .error "Query must be called with a table argument")) := by
  constructor
  · intro hl
    simp only [List.length_cons] at hl
    simp [Solver_query, h]
    intro h1
    exfalso
    omega
  · intro ht
    cases a2 with
    | table mm elems => simp [isTable] at ht
    | nil => simp [Solver_query, h]
    | boolean b => simp [Solver_query, h]
    | int n => simp [Solver_query, h]
    | str str2 => simp [Solver_query, h]
    | userdata mm hdl => simp [Solver_query, h]

/-- Witness for C10: a three-value stack (self and two arguments) for the
arity error, and an integer second argument for the type error. -/
theorem query_arity_and_type_check_witness :
    get_lgl 0 (LuaVal.userdata (some 0) 7) = .ok 7 ∧
    (LuaVal.userdata (some 0) 7 :: [LuaVal.int 1, LuaVal.int 2]).length ≠ 2 ∧
    Solver_query testLGL 0 [LuaVal.userdata (some 0) 7, LuaVal.int 1, LuaVal.int 2]
        ⟨[], 0⟩ =
      ([], .error "Query must be called with arguments self and a table") ∧
    isTable (LuaVal.int 1) = false ∧
    Solver_query testLGL 0 [LuaVal.userdata (some 0) 7, LuaVal.int 1] ⟨[], 0⟩ =
      ([], .error "Query must be called with a table argument") := by
  have h := query_arity_and_type_check testLGL 0 7 (LuaVal.userdata (some 0) 7)
    (LuaVal.int 1) [LuaVal.int 1, LuaVal.int 2] ⟨[], 0⟩ rfl
  exact ⟨rfl, by decide, h.1 (by decide), rfl, h.2 rfl⟩

/-- C3: when every argument is integer-valued (a single integer or a table
of integer-valued entries), `addDIMACSSeqence` forwards to the engine
exactly the supplied literals, concatenated in argument order then entry
order — the trace is precisely one `lgladd` per supplied literal, so
nothing is reordered, no extra literal and in particular no clause
terminator `0` is synthesized, and the engine's clause stream is extended
by exactly that flattening. -/
theorem addDIMACS_forwards_exactly (cls hd : Nat) (self : LuaVal)
    (rest : List LuaVal) (st : EngineState)
    (h : get_lgl cls self = .ok hd) (hv : rest.all intValuedArg = true) :
    Solver_addDIMACSSeqence cls (self :: rest) =
      ((flattenArgs rest).map ECall.add, .ok ()) ∧
    applyTrace st ((flattenArgs rest).map ECall.add) =
      { clauses := st.clauses ++ flattenArgs rest, solves := st.solves } := by
  constructor
  · have := addArgs_append_valid rest [] hv
    simp only [List.append_nil, addArgs] at this
    simp [Solver_addDIMACSSeqence, h, this]
  · exact applyTrace_adds st (flattenArgs rest)

/-- Witness for C3: the batch `([1, -2, 0], 5)` — a table of three
literals (with its embedded clause terminator) followed by a scalar. -/
theorem addDIMACS_forwards_exactly_witness :
    get_lgl 0 (LuaVal.userdata (some 0) 7) = .ok 7 ∧
    [LuaVal.table none [LuaVal.int 1, LuaVal.int (-2), LuaVal.int 0],
      LuaVal.int 5].all intValuedArg = true ∧
    (Solver_addDIMACSSeqence 0
        [LuaVal.userdata (some 0) 7,
         LuaVal.table none [LuaVal.int 1, LuaVal.int (-2), LuaVal.int 0],
         LuaVal.int 5] =
      ((flattenArgs [LuaVal.table none [LuaVal.int 1, LuaVal.int (-2), LuaVal.int 0],
          LuaVal.int 5]).map ECall.add, .ok ()) ∧
    applyTrace ⟨[], 0⟩
        ((flattenArgs [LuaVal.table none [LuaVal.int 1, LuaVal.int (-2), LuaVal.int 0],
          LuaVal.int 5]).map ECall.add) =
      { clauses := [] ++ flattenArgs
          [LuaVal.table none [LuaVal.int 1, LuaVal.int (-2), LuaVal.int 0],
           LuaVal.int 5], solves := 0 }) :=
  ⟨rfl, rfl,
    addDIMACS_forwards_exactly 0 7 (LuaVal.userdata (some 0) 7)
      [LuaVal.table none [LuaVal.int 1, LuaVal.int (-2), LuaVal.int 0], LuaVal.int 5]
      ⟨[], 0⟩ rfl rfl⟩

/-- C2 counterexample: the batch `([1, "x"])` on a fresh session fails with
"Illegal argument in DIMACS sequence" as claimed, but the valid literal 1
preceding the malformed entry has already been forwarded: the trace is
`[lgladd 1]` and the engine's clause stream afterwards is `[1]`, not empty
— contradicting "forwards nothing from that call to the engine". -/
theorem addDIMACS_partial_forward_cex :
    Solver_addDIMACSSeqence 0
        [LuaVal.userdata (some 0) 7, LuaVal.table none [LuaVal.int 1, LuaVal.str "x"]] =
      ([ECall.add 1], .error "Illegal argument in DIMACS sequence") ∧
    (applyTrace ⟨[], 0⟩ (Solver_addDIMACSSeqence 0
        [LuaVal.userdata (some 0) 7,
         LuaVal.table none [LuaVal.int 1, LuaVal.str "x"]]).1).clauses = [1] := by
  constructor <;> rfl

/-- C2 amended: a clause-submission call containing a non-integer element
fails with "Illegal argument in DIMACS sequence", and the literals
forwarded to the engine before the failure are exactly the valid literals
preceding the first malformed element (in argument order then entry
order); nothing at or after the malformed element is forwarded. -/
theorem addDIMACS_forwards_prefix_before_error (cls hd : Nat) (self : LuaVal)
    (pre : List LuaVal) (m : Option Nat) (es1 : List LuaVal) (bad : LuaVal)
    (es2 post : List LuaVal)
    (h : get_lgl cls self = .ok hd)
    (hpre : pre.all intValuedArg = true)
    (hes1 : es1.all (fun v => (tointegerx v).isSome) = true)
    (hbad : tointegerx bad = none) :
    Solver_addDIMACSSeqence cls
        (self :: pre ++ (LuaVal.table m (es1 ++ bad :: es2)) :: post) =
      ((flattenArgs pre ++ es1.map tointeger).map ECall.add,
       .error "Illegal argument in DIMACS sequence") ∧
    (isTable bad = false →
      Solver_addDIMACSSeqence cls (self :: pre ++ bad :: post) =
        ((flattenArgs pre).map ECall.add,
         .error "Illegal argument in DIMACS sequence")) := by
  constructor
  · have hhd : addArgs ((LuaVal.table m (es1 ++ bad :: es2)) :: post) =
        (es1.map (fun v => ECall.add (tointeger v)),
         .error "Illegal argument in DIMACS sequence") := by
      simp [addArgs, addFromTable_prefix es1 bad es2 hes1 hbad]
    have := addArgs_append_valid pre ((LuaVal.table m (es1 ++ bad :: es2)) :: post) hpre
    rw [hhd] at this
    simp only [Solver_addDIMACSSeqence]
    simp [h, this, List.map_append]
  · intro ht
    have hhd : addArgs (bad :: post) =
        ([], .error "Illegal argument in DIMACS sequence") := by
      cases bad with
      | table mm elems => simp [isTable] at ht
      | nil => simp [addArgs, tointegerx]
      | boolean b => simp [addArgs, tointegerx]
      | int n => simp [tointegerx] at hbad
      | str str2 => simp [addArgs, tointegerx] at hbad ⊢; simp [hbad]
      | userdata mm hdl => simp [addArgs, tointegerx]
    have := addArgs_append_valid pre (bad :: post) hpre
    rw [hhd] at this
    simp only [Solver_addDIMACSSeqence]
    simp [h, this]

/-- Witness for C2's amended claim: the batch `(5, [1, "x", 2], 9)` — the
literals 5 (earlier argument) and 1 (earlier entry) are forwarded, then
the call fails at "x"; and the scalar batch `(5, "x", 9)` forwards only 5. -/
theorem addDIMACS_forwards_prefix_before_error_witness :
    get_lgl 0 (LuaVal.userdata (some 0) 7) = .ok 7 ∧
    [LuaVal.int 5].all intValuedArg = true ∧
    [LuaVal.int 1].all (fun v => (tointegerx v).isSome) = true ∧
    tointegerx (LuaVal.str "x") = none ∧
    (Solver_addDIMACSSeqence 0
        (LuaVal.userdata (some 0) 7 :: [LuaVal.int 5] ++
          (LuaVal.table none ([LuaVal.int 1] ++ LuaVal.str "x" :: [LuaVal.int 2])) ::
            [LuaVal.int 9]) =
      ((flattenArgs [LuaVal.int 5] ++ [LuaVal.int 1].map tointeger).map ECall.add,
       .error "Illegal argument in DIMACS sequence") ∧
    (isTable (LuaVal.str "x") = false →
      Solver_addDIMACSSeqence 0
          (LuaVal.userdata (some 0) 7 :: [LuaVal.int 5] ++ LuaVal.str "x" :: [LuaVal.int 9]) =
        ((flattenArgs [LuaVal.int 5]).map ECall.add,
         .error "Illegal argument in DIMACS sequence"))) :=
  ⟨rfl, rfl, rfl, rfl,
    addDIMACS_forwards_prefix_before_error 0 7 (LuaVal.userdata (some 0) 7)
      [LuaVal.int 5] none [LuaVal.int 1] (LuaVal.str "x") [LuaVal.int 2] [LuaVal.int 9]
      rfl rfl rfl rfl⟩
